import Mathlib

/-!
Verification of the MinMind plan-file synchronizer and article pipeline.

The definitions below are a shallow embedding of the Rust sources:
  crates/minmind-core/src/user_action.rs   (UserAction, ActionStatus)
  crates/minmind-core/src/article.rs       (Article, ArticleStatus)
  crates/minmind-core/src/plan_parser.rs   (parse_plan_content, update_plan_markers)
  crates/minmind-cli/src/main.rs           (handle_todo_command: sync loop,
                                            complete/start/skip, find_user_action)

Modelling conventions:
  - Strings are modelled as `List Char` (`Str`) where character-level structure
    matters (file contents, lines), and as `String` for atomic fields
    (ids, titles, paths).  Rust byte indices into valid UTF-8 are modelled as
    character indices; every index the code computes points at an ASCII
    character, so the two agree.
  - UUIDs are opaque: fresh ids are supplied by a generator `Nat → String`;
    `Uuid::parse_str` succeeding on a full canonical id is modelled as the
    argument having the canonical length 36.
  - Timestamps are `Nat`; `Utc::now()` is an explicit `now` argument.
  - The SQLite store is a `List UserAction`.  `update_user_action` runs
    `UPDATE ... WHERE id` and its SET list omits `id` and `created_at`,
    which `updateById` reproduces.  `create_user_action` is an INSERT,
    modelled as appending.  `list_user_actions_by_source` is a WHERE filter
    (its ORDER BY only permutes rows; no claim depends on that order).
  - Fallible I/O is `Except String`.
-/

deriving instance DecidableEq for Except

/-- Status of a user action (user_action.rs, `ActionStatus`). -/
inductive ActionStatus where
  | pending
  | inProgress
  | completed
  | skipped
deriving DecidableEq, Repr

/-- A user-facing task row (user_action.rs, `UserAction`). -/
structure UserAction where
  id : String
  plan_id : Option String
  source_file : Option String
  line_number : Option Nat
  title : String
  description : Option String
  status : ActionStatus
  created_at : Nat
  completed_at : Option Nat
deriving DecidableEq, Repr

/-- Construct a fresh action (user_action.rs, `UserAction::new`); the
generated UUID and `Utc::now()` are passed in explicitly. -/
def UserAction.new (id : String) (title : String) (now : Nat) : UserAction :=
  { id := id, plan_id := none, source_file := none, line_number := none,
    title := title, description := none, status := ActionStatus.pending,
    created_at := now, completed_at := none }

/-- Construct an action anchored to a plan file (user_action.rs,
`UserAction::from_plan`). -/
def UserAction.from_plan (id : String) (title : String) (source_file : String)
    (line_number : Nat) (now : Nat) : UserAction :=
  { UserAction.new id title now with
    source_file := some source_file, line_number := some line_number }

/-- Mark in progress (user_action.rs, `UserAction::start`). -/
def UserAction.start (a : UserAction) : UserAction :=
  { a with status := ActionStatus.inProgress }

/-- Mark completed (user_action.rs, `UserAction::complete`). -/
def UserAction.complete (a : UserAction) (now : Nat) : UserAction :=
  { a with status := ActionStatus.completed, completed_at := some now }

/-- Mark skipped (user_action.rs, `UserAction::skip`); note the source does not
touch `completed_at` here. -/
def UserAction.skip (a : UserAction) : UserAction :=
  { a with status := ActionStatus.skipped }

/-- Terminal-status test (user_action.rs, `UserAction::is_done`). -/
def UserAction.is_done (a : UserAction) : Bool :=
  match a.status with
  | ActionStatus.completed => true
  | ActionStatus.skipped => true
  | _ => false

/-- Status of an article (article.rs, `ArticleStatus`). -/
inductive ArticleStatus where
  | pending
  | summarized
  | reviewed
  | archived
deriving DecidableEq, Repr

/-- A captured article (article.rs, `Article`; the metadata bag is omitted —
no transition reads or writes it). -/
structure Article where
  id : String
  url : String
  title : String
  raw_content : String
  summary : Option String
  room_id : Option String
  status : ArticleStatus
  created_at : Nat
  updated_at : Nat
deriving DecidableEq, Repr

/-- Store a summary (article.rs, `Article::set_summary`). -/
def Article.set_summary (a : Article) (s : String) (now : Nat) : Article :=
  { a with summary := some s, status := ArticleStatus.summarized, updated_at := now }

/-- Mark reviewed (article.rs, `Article::mark_reviewed`). -/
def Article.mark_reviewed (a : Article) (now : Nat) : Article :=
  { a with status := ArticleStatus.reviewed, updated_at := now }

/-- Archive (article.rs, `Article::archive`). -/
def Article.archive (a : Article) (now : Nat) : Article :=
  { a with status := ArticleStatus.archived, updated_at := now }

/-- File contents and lines, as character lists. -/
abbrev Str := List Char

/-- Model of Rust `str::trim`: strip leading and trailing whitespace. -/
def charsTrim (l : Str) : Str :=
  ((l.dropWhile Char.isWhitespace).reverse.dropWhile Char.isWhitespace).reverse

/-- Model of Rust `str::lines`: split at LF or CRLF; the final line ending is
optional; a carriage return not followed by a line feed stays in the line. -/
def strLines : Str → List Str
  | [] => []
  | [c] => if c = '\n' then [[]] else [[c]]
  | c1 :: c2 :: rest =>
    if c1 = '\n' then [] :: strLines (c2 :: rest)
    else if c1 = '\r' ∧ c2 = '\n' then [] :: strLines rest
    else
      match strLines (c2 :: rest) with
      | [] => [[c1]]
      | l :: ls => (c1 :: l) :: ls

/-- Model of `Vec::join("\n")`: concatenate lines with a single LF between
consecutive lines and nothing at the end. -/
def joinNL : List Str → Str
  | [] => []
  | [l] => l
  | l :: ls => l ++ '\n' :: joinNL ls

/-- A parsed user action (plan_parser.rs, `ParsedAction`). -/
structure ParsedAction where
  title : String
  line_number : Nat
  status : ActionStatus
deriving DecidableEq, Repr

/-- Result of parsing a plan file (plan_parser.rs, `ParseResult`). -/
structure ParseResult where
  source_file : String
  actions : List ParsedAction
deriving DecidableEq, Repr

/-- Token-to-status table (plan_parser.rs, the `match` in `parse_user_marker`);
Rust lowercases the marker before comparing, modelled with `Char.toLower`
(all comparison targets are ASCII). -/
def statusOfMarker (marker : Str) : ActionStatus :=
  let m := String.mk (marker.map Char.toLower)
  if m = "[user]" then ActionStatus.pending
  else if m = "[user:wip]" ∨ m = "[user:inprogress]" ∨ m = "[user:in_progress]" then
    ActionStatus.inProgress
  else if m = "[user:done]" ∨ m = "[user:completed]" then ActionStatus.completed
  else if m = "[user:skip]" ∨ m = "[user:skipped]" then ActionStatus.skipped
  else ActionStatus.pending

/-- Parse one (already `trim`med) line (plan_parser.rs, `parse_user_marker`):
strip any leading mix of dashes and whitespace, require the rest to start
with `[USER`, cut at the first `]`, and drop empty titles. -/
def parse_user_marker (line : Str) (line_number : Nat) : Option ParsedAction :=
  let l := line.dropWhile (fun c => c = '-' ∨ c.isWhitespace)
  if "[USER".data.isPrefixOf l then
    match l.findIdx? (fun c => c = ']') with
    | some close =>
      let title := charsTrim (l.drop (close + 1))
      if title = [] then none
      else
        some { title := String.mk title, line_number := line_number,
               status := statusOfMarker (l.take (close + 1)) }
    | none => none
  else none

/-- Parse a whole plan file (plan_parser.rs, `parse_plan_content`):
`content.lines().enumerate()`, with 1-based line numbers. -/
def parse_plan_content (content : Str) (source_file : String) : ParseResult :=
  { source_file := source_file,
    actions := (strLines content).enum.filterMap (fun p =>
      parse_user_marker (charsTrim p.2) (p.1 + 1)) }

/-- Canonical marker emitted for a status (plan_parser.rs, the `match` in
`update_line_marker`). -/
def markerFor : ActionStatus → Str
  | ActionStatus.pending => "[USER]".data
  | ActionStatus.inProgress => "[USER:wip]".data
  | ActionStatus.completed => "[USER:done]".data
  | ActionStatus.skipped => "[USER:skip]".data

/-- Index of the first occurrence of `pat` in `l` (Rust `str::find` with a
string pattern). -/
def findSub (pat : Str) : Str → Option Nat
  | [] => if pat.isPrefixOf ([] : Str) then some 0 else none
  | c :: rest =>
    if pat.isPrefixOf (c :: rest) then some 0
    else (findSub pat rest).map (fun n => n + 1)

/-- Rewrite one line's marker (plan_parser.rs, `update_line_marker`): find the
first `[USER`, then the next `]` at or after it, and splice in the canonical
marker; otherwise return the line unchanged. -/
def update_line_marker (line : Str) (new_status : ActionStatus) : Str :=
  match findSub "[USER".data line with
  | some s =>
    match (line.drop s).findIdx? (fun c => c = ']') with
    | some e => line.take s ++ markerFor new_status ++ line.drop (s + e + 1)
    | none => line
  | none => line

/-- Lookup modelling `HashMap::from_iter` over the updates vector: on duplicate
keys the last entry wins. -/
def lookupLast (k : Nat) : List (Nat × ActionStatus) → Option ActionStatus
  | [] => none
  | p :: ps =>
    match lookupLast k ps with
    | some st => some st
    | none => if p.1 = k then some p.2 else none

/-- The per-line pass of `update_plan_markers`: `.lines().enumerate().map(...)`
with 1-based line numbers, here carried in the accumulator `k`. -/
def updateLinesFrom (updates : List (Nat × ActionStatus)) (k : Nat) : List Str → List Str
  | [] => []
  | l :: ls =>
    (match lookupLast k updates with
     | some st => update_line_marker l st
     | none => l) :: updateLinesFrom updates (k + 1) ls

/-- Rewrite markers in a plan file (plan_parser.rs, `update_plan_markers`):
map over the lines and re-join with `"\n"`. -/
def update_plan_markers (content : Str) (updates : List (Nat × ActionStatus)) : Str :=
  joinNL (updateLinesFrom updates 1 (strLines content))

/-- Does the line contain `[USER` followed (at or after it) by `]`, i.e. does
`update_line_marker` have a span to replace?  Derived from the source for
stating invariance results. -/
def hasUserSpan (line : Str) : Bool :=
  match findSub "[USER".data line with
  | some s => ((line.drop s).findIdx? (fun c => c = ']')).isSome
  | none => false

/-- Horizontal whitespace, for the spec grammar. -/
def isHorizWS (c : Char) : Bool := c = ' ' ∨ c = '\t'

/-- Modelled from the spec (the grammar section): a line is a marker line iff,
after stripping leading horizontal whitespace and at most one leading dash
followed by at least one whitespace character, it begins with `[USER` and
contains `]` before end of line.  This definition follows the spec's words
(the source has no such predicate; `parse_user_marker` is its analogue) and
is used to state the non-marker-invariance claim. -/
def isMarkerLineSpec (line : Str) : Bool :=
  let l1 := line.dropWhile isHorizWS
  let l2 :=
    match l1 with
    | '-' :: c :: rest =>
      if c.isWhitespace then (c :: rest).dropWhile Char.isWhitespace else l1
    | _ => l1
  "[USER".data.isPrefixOf l2 && l2.contains ']'

/-- Model of the store's `update_user_action`: `UPDATE ... WHERE id`, whose SET
list covers every column except `id` and `created_at`. -/
def updateById (db : List UserAction) (a : UserAction) : List UserAction :=
  db.map (fun r => if r.id = a.id then { a with created_at := r.created_at } else r)

/-- The `existing_map` lookup in the sync loop (main.rs): a HashMap built from
the by-source rows keyed by line number; on duplicates the last insert wins. -/
def emapGet (existing : List UserAction) (ln : Nat) : Option UserAction :=
  existing.reverse.find? (fun a => a.line_number = some ln)

/-- State threaded through a sync run: the store contents, the supply index for
fresh ids, and the new/updated counters. -/
structure SyncCounts where
  db : List UserAction
  nextId : Nat
  newCount : Nat
  updatedCount : Nat
deriving DecidableEq, Repr

/-- The inner reconciliation loop of `TodoCommands::Sync` (main.rs): for each
parsed action, either update the line-matched existing row (status only when
the row is not terminal) or create a fresh row. -/
def syncLoop (gen : Nat → String) (now : Nat) (source_file : String)
    (existing : List UserAction) : List ParsedAction → SyncCounts → SyncCounts
  | [], st => st
  | p :: ps, st =>
    match emapGet existing p.line_number with
    | some e =>
      if e.title ≠ p.title ∨ (e.status ≠ p.status ∧ e.is_done = false) then
        syncLoop gen now source_file existing ps
          { st with
            db := updateById st.db
              { e with title := p.title,
                       status := if e.is_done then e.status else p.status },
            updatedCount := st.updatedCount + 1 }
      else
        syncLoop gen now source_file existing ps st
    | none =>
      syncLoop gen now source_file existing ps
        { st with
          db := st.db ++
            [{ UserAction.from_plan (gen st.nextId) p.title source_file p.line_number now
               with status := p.status }],
          nextId := st.nextId + 1,
          newCount := st.newCount + 1 }

/-- Reconcile one parsed file against the store (main.rs, the per-file body of
`TodoCommands::Sync`): load the by-source rows, index them by line number,
then run the loop. -/
def syncFile (gen : Nat → String) (now : Nat) (db : List UserAction)
    (source_file : String) (parsed : List ParsedAction) : SyncCounts :=
  syncLoop gen now source_file
    (db.filter (fun a => a.source_file = some source_file)) parsed
    { db := db, nextId := 0, newCount := 0, updatedCount := 0 }

/-- A directory entry as the sync loop sees it: the file test and extension
test (path handling is an external collaborator), and the outcome of
`fs::read_to_string`. -/
structure DirEntry where
  path : String
  is_file : Bool
  ext_is_md : Bool
  read : Except String Str
deriving DecidableEq, Repr

/-- The directory walk of `TodoCommands::Sync` (main.rs): skip entries that are
not `.md` files, propagate a read failure immediately (the `?` operator),
parse, skip files with no actions, and otherwise reconcile and accumulate
counts.  Returns the final state and the `found` total. -/
def syncRun (gen : Nat → String) (now : Nat) :
    List DirEntry → SyncCounts → Nat → Except String (SyncCounts × Nat)
  | [], st, found => Except.ok (st, found)
  | e :: rest, st, found =>
    if e.is_file = false ∨ e.ext_is_md = false then
      syncRun gen now rest st found
    else
      match e.read with
      | Except.error msg => Except.error msg
      | Except.ok content =>
        let result := parse_plan_content content e.path
        if result.actions = [] then syncRun gen now rest st found
        else
          let r := syncFile (fun k => gen (st.nextId + k)) now st.db e.path result.actions
          syncRun gen now rest
            { db := r.db, nextId := st.nextId + r.nextId,
              newCount := st.newCount + r.newCount,
              updatedCount := st.updatedCount + r.updatedCount }
            (found + result.actions.length)

/-- Model of `scan_plans_directory` (plan_parser.rs): the library directory
scanner, which logs and skips unreadable files instead of failing. -/
def scan_plans_directory (entries : List DirEntry) : List ParseResult :=
  entries.filterMap (fun e =>
    if e.is_file = false ∨ e.ext_is_md = false then none
    else
      match e.read with
      | Except.error _ => none
      | Except.ok content =>
        let result := parse_plan_content content e.path
        if result.actions = [] then none else some result)

/-- Id resolution (main.rs, `find_user_action`): try the full canonical id
first (`Uuid::parse_str` succeeding is modelled as the argument having the
canonical length 36), then scan all rows and return the first whose id has
the argument as a prefix; error only when nothing matches. -/
def find_user_action (db : List UserAction) (id : String) : Except String UserAction :=
  match (if id.data.length = 36 then db.find? (fun a => a.id = id) else none) with
  | some a => Except.ok a
  | none =>
    match db.find? (fun a => id.data.isPrefixOf a.id.data) with
    | some a => Except.ok a
    | none => Except.error ("Todo not found: " ++ id)

/-- The DB effect of `TodoCommands::Complete` (main.rs): resolve, apply
`complete`, persist.  The best-effort plan-file write-back goes through
`update_plan_markers` and does not touch the store. -/
def completeCmd (db : List UserAction) (id : String) (now : Nat) :
    Except String (List UserAction) :=
  match find_user_action db id with
  | Except.ok a => Except.ok (updateById db (a.complete now))
  | Except.error e => Except.error e

/-- The DB effect of `TodoCommands::Start` (main.rs). -/
def startCmd (db : List UserAction) (id : String) : Except String (List UserAction) :=
  match find_user_action db id with
  | Except.ok a => Except.ok (updateById db a.start)
  | Except.error e => Except.error e

/-- The DB effect of `TodoCommands::Skip` (main.rs). -/
def skipCmd (db : List UserAction) (id : String) : Except String (List UserAction) :=
  match find_user_action db id with
  | Except.ok a => Except.ok (updateById db a.skip)
  | Except.error e => Except.error e

/-- A stored action in a terminal state, anchored to line 1 of `p.md`. -/
def doneAction : UserAction :=
  { id := "a-1", plan_id := none, source_file := some "p.md",
    line_number := some 1, title := "A", description := none,
    status := ActionStatus.completed, created_at := 0, completed_at := some 5 }

/-- A concrete article already archived, for the C4 counterexample. -/
def archivedArticle : Article :=
  { id := "r-1", url := "u", title := "t", raw_content := "c", summary := some "s0",
    room_id := none, status := ArticleStatus.archived, created_at := 0, updated_at := 0 }

/-- A directory entry whose read fails, for the C6 theorems. -/
def badEntry : DirEntry :=
  { path := "a.md", is_file := true, ext_is_md := true, read := Except.error "io" }

/-- A readable `.md` entry with one pending action, for the C6 theorems. -/
def goodEntry : DirEntry :=
  { path := "b.md", is_file := true, ext_is_md := true,
    read := Except.ok "- [USER] x".data }

theorem joinNL_cons_cons (c : Char) (l : Str) (ls : List Str) :
    joinNL ((c :: l) :: ls) = c :: joinNL (l :: ls) := by
  cases ls <;> rfl

theorem strLines_ne_nil : ∀ (cs : Str), cs ≠ [] → strLines cs ≠ [] := by
  intro cs h
  match cs with
  | [c] =>
    unfold strLines; split <;> simp
  | c1 :: c2 :: rest =>
    unfold strLines
    split
    · simp
    · split
      · simp
      · split <;> simp

theorem joinNL_strLines (cs : Str) (hr : ¬ List.IsInfix ['\r', '\n'] cs)
    (hl : cs.getLast? ≠ some '\n') :
    joinNL (strLines cs) = cs := by
  induction cs using strLines.induct with
  | case1 => rfl
  | case2 => simp at hl
  | case3 c hc => simp [strLines, hc, joinNL]
  | case4 c2 rest ih =>
    have hr2 : ¬ List.IsInfix ['\r', '\n'] (c2 :: rest) :=
      fun hm => hr (List.infix_cons hm)
    have hl2 : (c2 :: rest).getLast? ≠ some '\n' := by
      rwa [List.getLast?_cons_cons] at hl
    cases hS : strLines (c2 :: rest) with
    | nil => exact absurd hS (strLines_ne_nil _ (by simp))
    | cons s ss =>
      have hstep : strLines ('\n' :: c2 :: rest) = [] :: s :: ss := by
        simp [strLines, hS]
      rw [hstep]
      have hjoin : joinNL ([] :: s :: ss) = '\n' :: joinNL (s :: ss) := rfl
      rw [hjoin, ← hS, ih hr2 hl2]
  | case5 c1 c2 rest h1 h2 ih =>
    exact absurd ⟨[], rest, by rw [h2.1, h2.2]; rfl⟩ hr
  | case6 c1 c2 rest h1 h2 heq ih =>
    exact absurd heq (strLines_ne_nil _ (by simp))
  | case7 c1 c2 rest h1 h2 l ls heq ih =>
    have hr2 : ¬ List.IsInfix ['\r', '\n'] (c2 :: rest) :=
      fun hm => hr (List.infix_cons hm)
    have hl2 : (c2 :: rest).getLast? ≠ some '\n' := by
      rwa [List.getLast?_cons_cons] at hl
    have hstep : strLines (c1 :: c2 :: rest) = (c1 :: l) :: ls := by
      simp [strLines, h1, h2, heq]
    rw [hstep, joinNL_cons_cons, ← heq, ih hr2 hl2]

theorem updateLinesFrom_nil_updates : ∀ (k : Nat) (ls : List Str),
    updateLinesFrom [] k ls = ls := by
  intro k ls
  induction ls generalizing k with
  | nil => rfl
  | cons l ls ih => simp [updateLinesFrom, lookupLast, ih]

theorem update_line_marker_of_no_span {line : Str} (st : ActionStatus)
    (h : hasUserSpan line = false) : update_line_marker line st = line := by
  unfold hasUserSpan at h
  unfold update_line_marker
  cases hf : findSub "[USER".data line with
  | none => rfl
  | some s =>
    simp only [hf] at h
    cases he : (line.drop s).findIdx? (fun c => c = ']') with
    | none => simp [he]
    | some e => rw [he] at h; simp at h

theorem updateLinesFrom_get (updates : List (Nat × ActionStatus)) :
    ∀ (ls : List Str) (k i : Nat) (line : Str),
      ls[i]? = some line →
      (lookupLast (k + i) updates = none ∨ hasUserSpan line = false) →
      (updateLinesFrom updates k ls)[i]? = some line := by
  intro ls
  induction ls with
  | nil => intro k i line h _; simp at h
  | cons l ls ih =>
    intro k i line h hcond
    cases i with
    | zero =>
      simp only [List.getElem?_cons_zero, Option.some.injEq] at h
      subst h
      simp only [updateLinesFrom]
      cases hk : lookupLast k updates with
      | none => simp
      | some st =>
        rcases hcond with hc | hc
        · rw [Nat.add_zero, hk] at hc; cases hc
        · simp [update_line_marker_of_no_span st hc]
    | succ j =>
      simp only [updateLinesFrom]
      simp only [List.getElem?_cons_succ] at h ⊢
      have harith : k + 1 + j = k + (j + 1) := by omega
      exact ih (k + 1) j line h (by rwa [harith])

theorem updateLinesFrom_length (updates : List (Nat × ActionStatus)) :
    ∀ (ls : List Str) (k : Nat), (updateLinesFrom updates k ls).length = ls.length := by
  intro ls
  induction ls with
  | nil => intro k; rfl
  | cons l ls ih => intro k; simp [updateLinesFrom, ih]

theorem lookupLast_filter_le (n : Nat) :
    ∀ (updates : List (Nat × ActionStatus)) (k : Nat), k ≤ n →
      lookupLast k (updates.filter (fun p => p.1 ≤ n)) = lookupLast k updates := by
  intro updates
  induction updates with
  | nil => intro k _; rfl
  | cons p ps ih =>
    intro k hk
    by_cases hp : p.1 ≤ n
    · rw [List.filter_cons_of_pos (by simpa using hp)]
      simp only [lookupLast]
      rw [ih k hk]
    · rw [List.filter_cons_of_neg (by simpa using hp)]
      rw [ih k hk]
      simp only [lookupLast]
      cases h2 : lookupLast k ps with
      | some st => rfl
      | none =>
        have hne : p.1 ≠ k := by omega
        simp [hne]

theorem updateLinesFrom_congr (U1 U2 : List (Nat × ActionStatus)) :
    ∀ (ls : List Str) (k : Nat),
      (∀ j, k ≤ j → j < k + ls.length → lookupLast j U1 = lookupLast j U2) →
      updateLinesFrom U1 k ls = updateLinesFrom U2 k ls := by
  intro ls
  induction ls with
  | nil => intro k _; rfl
  | cons l ls ih =>
    intro k h
    simp only [updateLinesFrom]
    rw [h k (Nat.le_refl k) (by simp only [List.length_cons]; omega)]
    congr 1
    exact ih (k + 1) (fun j hj1 hj2 => h j (by omega) (by simp only [List.length_cons]; omega))

/-- C3 counterexample: rewriting with an empty update map is not the identity —
a CRLF terminator is re-emitted as bare LF and a trailing terminator is
dropped, so the output is not byte-identical to the input. -/
theorem rewrite_empty_crlf_cex :
    update_plan_markers "a\r\nb".data [] = "a\nb".data ∧
    update_plan_markers "a\r\nb".data [] ≠ "a\r\nb".data ∧
    update_plan_markers "a\n".data [] = "a".data ∧
    update_plan_markers "a\n".data [] ≠ "a\n".data := by decide

/-- C3 (amended): with an empty update map, `update_plan_markers` re-joins the
input's lines with single LFs: a CRLF terminator is re-emitted as bare LF
and a trailing line terminator is dropped, while a carriage return not
followed by a line feed stays in its line; in particular the output is
byte-identical to the input whenever the input contains no CRLF pair and
does not end with a line feed. -/
theorem rewrite_empty_updates_id (cs : Str)
    (hr : ¬ List.IsInfix ['\r', '\n'] cs) (hl : cs.getLast? ≠ some '\n') :
    update_plan_markers cs [] = cs := by
  unfold update_plan_markers
  rw [updateLinesFrom_nil_updates]
  exact joinNL_strLines cs hr hl

/-- Witness for the amended C3 theorem at two concrete inputs: an LF-free
marker line, and a line with a bare mid-line carriage return (no CRLF). -/
theorem rewrite_empty_updates_id_witness :
    (¬ List.IsInfix ['\r', '\n'] "- [USER] x".data ∧
      "- [USER] x".data.getLast? ≠ some '\n' ∧
      update_plan_markers "- [USER] x".data [] = "- [USER] x".data) ∧
    (¬ List.IsInfix ['\r', '\n'] "a\rb".data ∧
      "a\rb".data.getLast? ≠ some '\n' ∧
      update_plan_markers "a\rb".data [] = "a\rb".data) :=
  ⟨⟨by decide, by decide,
      rewrite_empty_updates_id "- [USER] x".data (by decide) (by decide)⟩,
   ⟨by decide, by decide,
      rewrite_empty_updates_id "a\rb".data (by decide) (by decide)⟩⟩

/-- C8 counterexample: the line `x [USERNAME] y` is not a marker line under the
spec grammar, yet when its line number is in the update map the rewriter
replaces the `[USERNAME]` span with a canonical marker. -/
theorem rewrite_nonmarker_username_cex :
    isMarkerLineSpec "x [USERNAME] y".data = false ∧
    update_plan_markers "x [USERNAME] y".data [(1, ActionStatus.completed)] =
      "x [USER:done] y".data ∧
    update_plan_markers "x [USERNAME] y".data [(1, ActionStatus.completed)] ≠
      "x [USERNAME] y".data := by decide

/-- C8 (amended): `update_plan_markers` is `joinNL` of a per-line map, and a
line is reproduced exactly when its number is not a key of the update map,
or when it has no `[USER`-to-`]` span — whether or not it is a marker line
under the spec grammar. -/
theorem rewrite_line_invariance (cs : Str) (updates : List (Nat × ActionStatus))
    (i : Nat) (line : Str)
    (hline : (strLines cs)[i]? = some line)
    (h : lookupLast (i + 1) updates = none ∨ hasUserSpan line = false) :
    update_plan_markers cs updates = joinNL (updateLinesFrom updates 1 (strLines cs)) ∧
    (updateLinesFrom updates 1 (strLines cs))[i]? = some line := by
  refine ⟨rfl, ?_⟩
  apply updateLinesFrom_get updates _ 1 i line hline
  rcases h with h | h
  · exact Or.inl (by rwa [Nat.add_comm])
  · exact Or.inr h

/-- Witness for the amended C8 theorem on a concrete two-line file. -/
theorem rewrite_line_invariance_witness :
    ((strLines "q\nw".data)[1]? = some ['w']) ∧
    (updateLinesFrom [(1, ActionStatus.skipped)] 1 (strLines "q\nw".data))[1]? = some ['w'] :=
  ⟨by decide,
    (rewrite_line_invariance "q\nw".data [(1, ActionStatus.skipped)] 1 ['w']
      (by decide) (by decide)).2⟩

/-- C10 (confirmed): the rewriter is a total function on its modelled inputs;
update entries addressing line numbers beyond the file contribute nothing
(filtering them away leaves the output unchanged), the line count is
preserved, and an addressed line without a `[USER`-to-`]` span is left
unchanged. -/
theorem rewrite_total_ignores_inapplicable (cs : Str)
    (updates : List (Nat × ActionStatus)) :
    (updateLinesFrom updates 1 (strLines cs)).length = (strLines cs).length ∧
    update_plan_markers cs updates =
      update_plan_markers cs (updates.filter (fun p => p.1 ≤ (strLines cs).length)) ∧
    (∀ (i : Nat) (line : Str), (strLines cs)[i]? = some line →
      hasUserSpan line = false →
      (updateLinesFrom updates 1 (strLines cs))[i]? = some line) := by
  refine ⟨updateLinesFrom_length updates _ 1, ?_, ?_⟩
  · unfold update_plan_markers
    congr 1
    apply updateLinesFrom_congr
    intro j hj1 hj2
    exact (lookupLast_filter_le (strLines cs).length updates j (by omega)).symm
  · intro i line h1 h2
    exact updateLinesFrom_get updates _ 1 i line h1 (Or.inr h2)

/-- Witness for C10 on a concrete input with an out-of-range key. -/
theorem rewrite_total_ignores_inapplicable_witness :
    ((strLines "abc".data)[0]? = some "abc".data) ∧
    hasUserSpan "abc".data = false ∧
    (updateLinesFrom [(5, ActionStatus.completed)] 1 (strLines "abc".data))[0]? =
      some "abc".data :=
  ⟨by decide, by decide,
    (rewrite_total_ignores_inapplicable "abc".data [(5, ActionStatus.completed)]).2.2
      0 "abc".data (by decide) (by decide)⟩

/-- C4 counterexample: `set_summary` on an Archived article moves it back to
Summarized — Archived is not terminal for the implemented transitions. -/
theorem set_summary_on_archived_cex :
    archivedArticle.status = ArticleStatus.archived ∧
    (archivedArticle.set_summary "S" 7).status = ArticleStatus.summarized ∧
    (archivedArticle.mark_reviewed 7).status = ArticleStatus.reviewed := by decide

/-- C4 (amended): the article transitions are unconditional — `set_summary`
always stores the summary and sets Summarized, `mark_reviewed` always sets
Reviewed, `archive` always sets Archived, each bumping `updated_at`, from
every status including Reviewed and Archived; no monotonicity guard exists. -/
theorem article_transitions_unconditional (a : Article) (s : String) (now : Nat) :
    (a.set_summary s now).status = ArticleStatus.summarized ∧
    (a.set_summary s now).summary = some s ∧
    (a.set_summary s now).updated_at = now ∧
    (a.mark_reviewed now).status = ArticleStatus.reviewed ∧
    (a.archive now).status = ArticleStatus.archived :=
  ⟨rfl, rfl, rfl, rfl, rfl⟩

/-- C7 counterexample: `complete` then `skip` yields an action that is Skipped
while `completed_at` is still set, because `skip` does not clear it. -/
theorem skip_after_complete_cex :
    (((UserAction.new "u-1" "T" 0).complete 5).skip).status = ActionStatus.skipped ∧
    (((UserAction.new "u-1" "T" 0).complete 5).skip).completed_at = some 5 := by decide

theorem find_user_action_ok {db : List UserAction} {id : String} {a : UserAction}
    (h : find_user_action db id = Except.ok a) :
    a ∈ db ∧ id.data.isPrefixOf a.id.data = true := by
  unfold find_user_action at h
  cases hg : (if id.data.length = 36 then db.find? (fun r => r.id = id) else none) with
  | some b =>
    rw [hg] at h
    simp only [Except.ok.injEq] at h
    subst h
    by_cases hlen : id.data.length = 36
    · rw [if_pos hlen] at hg
      have hmem := List.mem_of_find?_eq_some hg
      have hpred := List.find?_some hg
      simp only [decide_eq_true_eq] at hpred
      refine ⟨hmem, ?_⟩
      rw [hpred]
      simp [List.isPrefixOf_iff_prefix]
    · rw [if_neg hlen] at hg
      cases hg
  | none =>
    rw [hg] at h
    cases hf : db.find? (fun r => id.data.isPrefixOf r.id.data) with
    | some b =>
      rw [hf] at h
      simp only [Except.ok.injEq] at h
      subst h
      refine ⟨List.mem_of_find?_eq_some hf, ?_⟩
      have hp := List.find?_some hf
      simpa using hp
    | none =>
      rw [hf] at h
      cases h

/-- C5 counterexample: with two stored actions whose ids both extend the
argument, resolution returns the first match instead of failing with an
ambiguity error. -/
theorem ambiguous_short_id_first_match_cex :
    ("ab".data.isPrefixOf "ab-1".data = true ∧ "ab".data.isPrefixOf "ab-2".data = true) ∧
    find_user_action
      [{ id := "ab-1", plan_id := none, source_file := none, line_number := none,
         title := "t1", description := none, status := ActionStatus.pending,
         created_at := 0, completed_at := none },
       { id := "ab-2", plan_id := none, source_file := none, line_number := none,
         title := "t2", description := none, status := ActionStatus.pending,
         created_at := 0, completed_at := none }] "ab" =
      Except.ok
        { id := "ab-1", plan_id := none, source_file := none, line_number := none,
          title := "t1", description := none, status := ActionStatus.pending,
          created_at := 0, completed_at := none } := by decide

/-- C5 (amended): resolution succeeds exactly when some stored action has the
argument as a prefix of its id; every returned action is such a match;
multiple matches are silently resolved — for a non-canonical-length
argument the result is precisely the first prefix match in listing order,
and zero matches give the only error. -/
theorem find_user_action_resolution (db : List UserAction) (id : String) :
    ((∃ a, a ∈ db ∧ id.data.isPrefixOf a.id.data = true) ↔
      (∃ a, find_user_action db id = Except.ok a)) ∧
    (∀ a, find_user_action db id = Except.ok a →
      a ∈ db ∧ id.data.isPrefixOf a.id.data = true) ∧
    (id.data.length ≠ 36 →
      ∀ a, find_user_action db id = Except.ok a ↔
        db.find? (fun r => id.data.isPrefixOf r.id.data) = some a) := by
  refine ⟨⟨?_, ?_⟩, fun a h => find_user_action_ok h, ?_⟩
  · rintro ⟨a, ha, hp⟩
    unfold find_user_action
    cases hg : (if id.data.length = 36 then db.find? (fun r => r.id = id) else none) with
    | some b => exact ⟨b, rfl⟩
    | none =>
      cases hf : db.find? (fun r => id.data.isPrefixOf r.id.data) with
      | some b => exact ⟨b, rfl⟩
      | none =>
        exfalso
        have := List.find?_eq_none.mp hf a ha
        simp [hp] at this
  · rintro ⟨a, ha⟩
    exact ⟨a, find_user_action_ok ha⟩
  · intro hlen a
    unfold find_user_action
    rw [if_neg hlen]
    cases hf : db.find? (fun r => id.data.isPrefixOf r.id.data) with
    | some b => simp [hf]
    | none => simp [hf]

/-- Witness for the amended C5 theorem: a one-row store where a short id
resolves. -/
theorem find_user_action_resolution_witness :
    ∃ a, find_user_action
      [{ id := "ab-1", plan_id := none, source_file := none, line_number := none,
         title := "t1", description := none, status := ActionStatus.pending,
         created_at := 0, completed_at := none }] "ab" = Except.ok a :=
  (find_user_action_resolution
      [{ id := "ab-1", plan_id := none, source_file := none, line_number := none,
         title := "t1", description := none, status := ActionStatus.pending,
         created_at := 0, completed_at := none }] "ab").1.mp
    ⟨{ id := "ab-1", plan_id := none, source_file := none, line_number := none,
       title := "t1", description := none, status := ActionStatus.pending,
       created_at := 0, completed_at := none }, by decide, by decide⟩

theorem eq_of_nodup_ids {db : List UserAction}
    (hnodup : (db.map (fun r => r.id)).Nodup) {x y : UserAction}
    (hx : x ∈ db) (hy : y ∈ db) (hxy : x.id = y.id) : x = y :=
  List.inj_on_of_nodup_map hnodup hx hy hxy

theorem updateById_row_fields {db : List UserAction} {b r : UserAction}
    (hr : r ∈ updateById db b) (hid : r.id = b.id) :
    r.status = b.status ∧ r.completed_at = b.completed_at := by
  unfold updateById at hr
  obtain ⟨x, hx, hxr⟩ := List.mem_map.mp hr
  by_cases h : x.id = b.id
  · rw [if_pos h] at hxr
    subst hxr
    exact ⟨rfl, rfl⟩
  · rw [if_neg h] at hxr
    subst hxr
    exact absurd hid h

/-- C2 counterexample: `start` on a Completed action moves it to InProgress and
`skip` moves it to Skipped — the commands carry no terminal guard. -/
theorem start_on_completed_cex :
    doneAction.status = ActionStatus.completed ∧
    startCmd [doneAction] "a-1" =
      Except.ok [{ doneAction with status := ActionStatus.inProgress }] ∧
    skipCmd [doneAction] "a-1" =
      Except.ok [{ doneAction with status := ActionStatus.skipped }] := by decide

/-- C2 (amended): the complete/start/skip commands apply their transitions
unconditionally, whatever the current status (terminal included): after a
successful resolution the resolved row is set to the command's target
status, and `complete` stamps `completed_at` with the current time. -/
theorem commands_unguarded (db : List UserAction) (id : String) (a : UserAction)
    (now : Nat) (hfind : find_user_action db id = Except.ok a) :
    (∃ d, startCmd db id = Except.ok d ∧
      ∀ r ∈ d, r.id = a.id → r.status = ActionStatus.inProgress) ∧
    (∃ d, completeCmd db id now = Except.ok d ∧
      ∀ r ∈ d, r.id = a.id →
        r.status = ActionStatus.completed ∧ r.completed_at = some now) ∧
    (∃ d, skipCmd db id = Except.ok d ∧
      ∀ r ∈ d, r.id = a.id → r.status = ActionStatus.skipped) := by
  refine ⟨⟨updateById db a.start, ?_, ?_⟩,
          ⟨updateById db (a.complete now), ?_, ?_⟩,
          ⟨updateById db a.skip, ?_, ?_⟩⟩
  · unfold startCmd; rw [hfind]
  · intro r hr hid
    exact (updateById_row_fields hr hid).1
  · unfold completeCmd; rw [hfind]
  · intro r hr hid
    exact ⟨(updateById_row_fields hr hid).1, (updateById_row_fields hr hid).2⟩
  · unfold skipCmd; rw [hfind]
  · intro r hr hid
    exact (updateById_row_fields hr hid).1

/-- Witness for the amended C2 theorem: `start` on a concrete Completed row. -/
theorem commands_unguarded_witness :
    find_user_action [doneAction] "a-1" = Except.ok doneAction ∧
    (∃ d, startCmd [doneAction] "a-1" = Except.ok d ∧
      ∀ r ∈ d, r.id = doneAction.id → r.status = ActionStatus.inProgress) :=
  ⟨by decide, (commands_unguarded [doneAction] "a-1" doneAction 0 (by decide)).1⟩

theorem find_user_action_ok_mem {db : List UserAction} {id : String} {a : UserAction}
    (h : find_user_action db id = Except.ok a) : a ∈ db :=
  (find_user_action_ok h).1

/-- C7 (amended): `skip` and `start` preserve `completed_at` — at the entity
level they return the action with `completed_at` untouched, and at the
command level the store's `completed_at` column is unchanged row-for-row;
only `complete` writes it, so the sole way to reach Skipped with
`completed_at` set is to complete first and then skip. -/
theorem start_skip_preserve_completed_at (db : List UserAction) (id : String)
    (hnodup : (db.map (fun r => r.id)).Nodup) :
    (∀ a : UserAction, a.skip.completed_at = a.completed_at ∧
      a.start.completed_at = a.completed_at) ∧
    (∀ d, skipCmd db id = Except.ok d →
      d.map (fun r => r.completed_at) = db.map (fun r => r.completed_at)) ∧
    (∀ d, startCmd db id = Except.ok d →
      d.map (fun r => r.completed_at) = db.map (fun r => r.completed_at)) := by
  have hmap : ∀ a : UserAction, a ∈ db → ∀ b : UserAction, b.id = a.id →
      b.completed_at = a.completed_at →
      (updateById db b).map (fun r => r.completed_at) =
        db.map (fun r => r.completed_at) := by
    intro a ha b hbid hbca
    unfold updateById
    rw [List.map_map]
    apply List.map_congr_left
    intro r hrmem
    simp only [Function.comp]
    by_cases h : r.id = b.id
    · rw [if_pos h]
      have hra : r = a := eq_of_nodup_ids hnodup hrmem ha (by rw [h, hbid])
      show b.completed_at = r.completed_at
      rw [hbca, hra]
    · rw [if_neg h]
  refine ⟨fun a => ⟨rfl, rfl⟩, ?_, ?_⟩
  · intro d hd
    unfold skipCmd at hd
    cases hfind : find_user_action db id with
    | ok a =>
      rw [hfind] at hd
      simp only [Except.ok.injEq] at hd
      subst hd
      exact hmap a (find_user_action_ok_mem hfind) a.skip rfl rfl
    | error e => rw [hfind] at hd; cases hd
  · intro d hd
    unfold startCmd at hd
    cases hfind : find_user_action db id with
    | ok a =>
      rw [hfind] at hd
      simp only [Except.ok.injEq] at hd
      subst hd
      exact hmap a (find_user_action_ok_mem hfind) a.start rfl rfl
    | error e => rw [hfind] at hd; cases hd

/-- Witness for the amended C7 theorem on a concrete one-row store. -/
theorem start_skip_preserve_completed_at_witness :
    ((([doneAction] : List UserAction).map (fun r => r.id)).Nodup) ∧
    (∀ d, skipCmd [doneAction] "a-1" = Except.ok d →
      d.map (fun r => r.completed_at) = [doneAction].map (fun r => r.completed_at)) :=
  ⟨by decide, (start_skip_preserve_completed_at [doneAction] "a-1" (by decide)).2.1⟩

theorem emapGet_eq_some {existing : List UserAction} {ln : Nat} {e : UserAction}
    (h : emapGet existing ln = some e) : e ∈ existing ∧ e.line_number = some ln := by
  unfold emapGet at h
  refine ⟨List.mem_reverse.mp (List.mem_of_find?_eq_some h), ?_⟩
  have hp := List.find?_some h
  simpa using hp

theorem mem_updateById_of_ne {db : List UserAction} {a b : UserAction}
    (ha : a ∈ db) (hne : a.id ≠ b.id) : a ∈ updateById db b := by
  unfold updateById
  have h : (fun r => if r.id = b.id then { b with created_at := r.created_at } else r) a
      = a := by simp [hne]
  exact h ▸ List.mem_map_of_mem _ ha

theorem mem_updateById_of_eq {db : List UserAction} {c b : UserAction}
    (hc : c ∈ db) (heq : c.id = b.id) :
    { b with created_at := c.created_at } ∈ updateById db b := by
  unfold updateById
  have h : (fun r => if r.id = b.id then { b with created_at := r.created_at } else r) c
      = { b with created_at := c.created_at } := by simp [heq]
  exact h ▸ List.mem_map_of_mem _ hc

theorem syncLoop_cons (gen : Nat → String) (now : Nat) (f : String)
    (existing : List UserAction) (p : ParsedAction) (ps : List ParsedAction)
    (st : SyncCounts) :
    syncLoop gen now f existing (p :: ps) st =
      match emapGet existing p.line_number with
      | some e =>
        if e.title ≠ p.title ∨ (e.status ≠ p.status ∧ e.is_done = false) then
          syncLoop gen now f existing ps
            { st with
              db := updateById st.db
                { e with title := p.title,
                         status := if e.is_done then e.status else p.status },
              updatedCount := st.updatedCount + 1 }
        else syncLoop gen now f existing ps st
      | none =>
        syncLoop gen now f existing ps
          { st with
            db := st.db ++
              [{ UserAction.from_plan (gen st.nextId) p.title f p.line_number now
                 with status := p.status }],
            nextId := st.nextId + 1,
            newCount := st.newCount + 1 } := rfl

theorem syncLoop_cons_some (gen : Nat → String) (now : Nat) (f : String)
    (existing : List UserAction) (p : ParsedAction) (ps : List ParsedAction)
    (st : SyncCounts) (e : UserAction)
    (hm : emapGet existing p.line_number = some e) :
    syncLoop gen now f existing (p :: ps) st =
      if e.title ≠ p.title ∨ (e.status ≠ p.status ∧ e.is_done = false) then
        syncLoop gen now f existing ps
          { st with
            db := updateById st.db
              { e with title := p.title,
                       status := if e.is_done then e.status else p.status },
            updatedCount := st.updatedCount + 1 }
      else syncLoop gen now f existing ps st := by
  rw [syncLoop_cons, hm]

theorem syncLoop_cons_none (gen : Nat → String) (now : Nat) (f : String)
    (existing : List UserAction) (p : ParsedAction) (ps : List ParsedAction)
    (st : SyncCounts) (hm : emapGet existing p.line_number = none) :
    syncLoop gen now f existing (p :: ps) st =
      syncLoop gen now f existing ps
        { st with
          db := st.db ++
            [{ UserAction.from_plan (gen st.nextId) p.title f p.line_number now
               with status := p.status }],
          nextId := st.nextId + 1,
          newCount := st.newCount + 1 } := by
  rw [syncLoop_cons, hm]

theorem syncLoop_mem_preserved (gen : Nat → String) (now : Nat) (f : String)
    (existing : List UserAction) {a : UserAction} :
    ∀ (parsed : List ParsedAction) (st : SyncCounts),
      (∀ p ∈ parsed, ∀ e, emapGet existing p.line_number = some e → e.id ≠ a.id) →
      a ∈ st.db → a ∈ (syncLoop gen now f existing parsed st).db := by
  intro parsed
  induction parsed with
  | nil => intro st _ h; exact h
  | cons p ps ih =>
    intro st hid h
    have hid2 : ∀ q ∈ ps, ∀ e, emapGet existing q.line_number = some e → e.id ≠ a.id :=
      fun q hq => hid q (List.mem_cons_of_mem _ hq)
    cases hm : emapGet existing p.line_number with
    | none =>
      rw [syncLoop_cons_none gen now f existing p ps st hm]
      exact ih _ hid2 (List.mem_append_left _ h)
    | some e =>
      rw [syncLoop_cons_some gen now f existing p ps st e hm]
      have hne : e.id ≠ a.id := hid p (List.mem_cons_self _ _) e hm
      by_cases hcond : e.title ≠ p.title ∨ (e.status ≠ p.status ∧ e.is_done = false)
      · rw [if_pos hcond]
        exact ih _ hid2 (mem_updateById_of_ne h (fun hh => hne hh.symm))
      · rw [if_neg hcond]
        exact ih _ hid2 h

/-- C9 (confirmed): sync never deletes — a stored action whose line number is
not among the parsed actions' line numbers survives a sync over its file
entirely unchanged (assuming distinct row ids, the database primary key). -/
theorem sync_no_orphan_deletion (gen : Nat → String) (now : Nat)
    (db : List UserAction) (f : String) (parsed : List ParsedAction)
    (a : UserAction) (ln : Nat)
    (hnodup : (db.map (fun r => r.id)).Nodup)
    (ha : a ∈ db) (hln : a.line_number = some ln)
    (hnotin : ∀ p ∈ parsed, p.line_number ≠ ln) :
    a ∈ (syncFile gen now db f parsed).db := by
  unfold syncFile
  apply syncLoop_mem_preserved
  · intro p hp e hm heq
    obtain ⟨hmem, hline⟩ := emapGet_eq_some hm
    have hedb : e ∈ db := List.mem_of_mem_filter hmem
    have hea : e = a := eq_of_nodup_ids hnodup hedb ha heq
    rw [hea, hln] at hline
    injection hline with hline
    exact hnotin p hp hline.symm
  · exact ha

/-- Witness for C9 on a concrete one-row store and a disjoint parsed line. -/
theorem sync_no_orphan_deletion_witness :
    (([doneAction] : List UserAction).map (fun r => r.id)).Nodup ∧
    doneAction ∈ (syncFile (fun _ => "n0") 3 [doneAction] "p.md"
      [{ title := "other", line_number := 2, status := ActionStatus.pending }]).db :=
  ⟨by decide,
    sync_no_orphan_deletion (fun _ => "n0") 3 [doneAction] "p.md"
      [{ title := "other", line_number := 2, status := ActionStatus.pending }]
      doneAction 1 (by decide) (by decide) (by decide) (by decide)⟩

theorem syncLoop_terminal_exists (gen : Nat → String) (now : Nat) (f : String)
    (existing : List UserAction) {a : UserAction}
    (hdone : a.is_done = true)
    (hinj : ∀ ln e, emapGet existing ln = some e → e.id = a.id → e = a) :
    ∀ (parsed : List ParsedAction) (st : SyncCounts),
      (∃ t, { a with title := t } ∈ st.db) →
      ∃ t, { a with title := t } ∈ (syncLoop gen now f existing parsed st).db := by
  intro parsed
  induction parsed with
  | nil => intro st h; exact h
  | cons p ps ih =>
    intro st h
    obtain ⟨t, hb⟩ := h
    cases hm : emapGet existing p.line_number with
    | none =>
      rw [syncLoop_cons_none gen now f existing p ps st hm]
      exact ih _ ⟨t, List.mem_append_left _ hb⟩
    | some e =>
      rw [syncLoop_cons_some gen now f existing p ps st e hm]
      by_cases heq : e.id = a.id
      · have hea : e = a := hinj _ _ hm heq
        subst hea
        by_cases hcond : e.title ≠ p.title ∨ (e.status ≠ p.status ∧ e.is_done = false)
        · rw [if_pos hcond]
          have hB : ({ e with title := p.title, status := if e.is_done then e.status else p.status } : UserAction) = { e with title := p.title } := by
            rw [hdone]
            rfl
          rw [hB]
          exact ih _ ⟨p.title,
            @mem_updateById_of_eq st.db { e with title := t } { e with title := p.title }
              hb rfl⟩
        · rw [if_neg hcond]
          exact ih _ ⟨t, hb⟩
      · by_cases hcond : e.title ≠ p.title ∨ (e.status ≠ p.status ∧ e.is_done = false)
        · rw [if_pos hcond]
          exact ih _ ⟨t, mem_updateById_of_ne hb (fun hh => heq hh.symm)⟩
        · rw [if_neg hcond]
          exact ih _ ⟨t, hb⟩

theorem syncLoop_terminal_untouched (gen : Nat → String) (now : Nat) (f : String)
    (existing : List UserAction) {a : UserAction}
    (hdone : a.is_done = true)
    (hinj : ∀ ln e, emapGet existing ln = some e → e.id = a.id → e = a) :
    ∀ (parsed : List ParsedAction) (st : SyncCounts),
      a ∈ st.db →
      (∀ p ∈ parsed, a.line_number = some p.line_number → p.title = a.title) →
      a ∈ (syncLoop gen now f existing parsed st).db := by
  intro parsed
  induction parsed with
  | nil => intro st h _; exact h
  | cons p ps ih =>
    intro st h hT
    have hT2 : ∀ q ∈ ps, a.line_number = some q.line_number → q.title = a.title :=
      fun q hq => hT q (List.mem_cons_of_mem _ hq)
    cases hm : emapGet existing p.line_number with
    | none =>
      rw [syncLoop_cons_none gen now f existing p ps st hm]
      exact ih _ (List.mem_append_left _ h) hT2
    | some e =>
      rw [syncLoop_cons_some gen now f existing p ps st e hm]
      by_cases heq : e.id = a.id
      · have hea : e = a := hinj _ _ hm heq
        subst hea
        have hlinep : e.line_number = some p.line_number := (emapGet_eq_some hm).2
        have htitle : p.title = e.title := hT p (List.mem_cons_self _ _) hlinep
        have hnc : ¬(e.title ≠ p.title ∨ (e.status ≠ p.status ∧ e.is_done = false)) := by
          rintro (hne | ⟨_, hf⟩)
          · exact hne htitle.symm
          · rw [hdone] at hf
            cases hf
        rw [if_neg hnc]
        exact ih _ h hT2
      · by_cases hcond : e.title ≠ p.title ∨ (e.status ≠ p.status ∧ e.is_done = false)
        · rw [if_pos hcond]
          exact ih _ (mem_updateById_of_ne h (fun hh => heq hh.symm)) hT2
        · rw [if_neg hcond]
          exact ih _ h hT2

/-- C1 (amended): for a terminal stored action matched by line number, sync
never changes the status (or any field other than the title): some row
differing from it at most in the title is always present afterwards, and
when every parsed action at its line carries the same title the action
survives entirely unchanged. -/
theorem sync_terminal_only_title (gen : Nat → String) (now : Nat)
    (db : List UserAction) (f : String) (parsed : List ParsedAction)
    (a : UserAction)
    (hnodup : (db.map (fun r => r.id)).Nodup)
    (ha : a ∈ db) (hdone : a.is_done = true) :
    (∃ t, { a with title := t } ∈ (syncFile gen now db f parsed).db) ∧
    ((∀ p ∈ parsed, a.line_number = some p.line_number → p.title = a.title) →
      a ∈ (syncFile gen now db f parsed).db) := by
  have hinj : ∀ ln e,
      emapGet (db.filter (fun r => r.source_file = some f)) ln = some e →
      e.id = a.id → e = a := fun ln e hm heq =>
    eq_of_nodup_ids hnodup (List.mem_of_mem_filter (emapGet_eq_some hm).1) ha heq
  constructor
  · exact syncLoop_terminal_exists gen now f _ hdone hinj parsed _ ⟨a.title, ha⟩
  · intro hT
    exact syncLoop_terminal_untouched gen now f _ hdone hinj parsed _ ha hT

/-- Witness for the amended C1 theorem: a terminal row whose file title agrees
is untouched by sync. -/
theorem sync_terminal_only_title_witness :
    doneAction.is_done = true ∧
    doneAction ∈ (syncFile (fun _ => "n0") 3 [doneAction] "p.md"
      [{ title := "A", line_number := 1, status := ActionStatus.pending }]).db :=
  ⟨by decide,
    (sync_terminal_only_title (fun _ => "n0") 3 [doneAction] "p.md"
        [{ title := "A", line_number := 1, status := ActionStatus.pending }]
        doneAction (by decide) (by decide) (by decide)).2 (by decide)⟩

/-- C1 counterexample: a Completed action matched by line number whose file
title differs is mutated by sync — its title is overwritten and it counts
as one update (the status alone stays). -/
theorem sync_terminal_title_rewrite_cex :
    doneAction.is_done = true ∧
    syncFile (fun _ => "n0") 9 [doneAction] "p.md"
        [{ title := "B", line_number := 1, status := ActionStatus.pending }] =
      { db := [{ doneAction with title := "B" }], nextId := 0, newCount := 0,
        updatedCount := 1 } := by decide

theorem syncRun_cons (gen : Nat → String) (now : Nat) (e : DirEntry)
    (rest : List DirEntry) (st : SyncCounts) (found : Nat) :
    syncRun gen now (e :: rest) st found =
      (if e.is_file = false ∨ e.ext_is_md = false then
        syncRun gen now rest st found
      else
        match e.read with
        | Except.error msg => Except.error msg
        | Except.ok content =>
          let result := parse_plan_content content e.path
          if result.actions = [] then syncRun gen now rest st found
          else
            let r := syncFile (fun k => gen (st.nextId + k)) now st.db e.path
              result.actions
            syncRun gen now rest
              { db := r.db, nextId := st.nextId + r.nextId,
                newCount := st.newCount + r.newCount,
                updatedCount := st.updatedCount + r.updatedCount }
              (found + result.actions.length)) := rfl

/-- C6 counterexample: with an unreadable `.md` file followed by a readable
one, the sync command aborts with the read error instead of skipping the
file; alone, the second file would have produced counts found 1, new 1. -/
theorem sync_unreadable_file_aborts_cex :
    syncRun (fun _ => "n0") 0 [badEntry, goodEntry]
      { db := [], nextId := 0, newCount := 0, updatedCount := 0 } 0 =
      Except.error "io" ∧
    syncRun (fun _ => "n0") 0 [goodEntry]
      { db := [], nextId := 0, newCount := 0, updatedCount := 0 } 0 =
      Except.ok
        ({ db := [{ UserAction.from_plan "n0" "x" "b.md" 1 0 with
                    status := ActionStatus.pending }],
           nextId := 1, newCount := 1, updatedCount := 0 }, 1) := by decide

/-- C6 (amended): a read failure on an `.md` file aborts the whole sync run
with that error — after any prefix of readable (or skipped) entries, the
first unreadable `.md` entry makes `syncRun` return its error, reporting no
counts. -/
theorem sync_aborts_on_first_unreadable_md (gen : Nat → String) (now : Nat)
    (bad : DirEntry) (msg : String)
    (hfile : bad.is_file = true) (hmd : bad.ext_is_md = true)
    (hread : bad.read = Except.error msg) :
    ∀ (pre : List DirEntry),
      (∀ e ∈ pre, e.is_file = true → e.ext_is_md = true →
        ∃ c, e.read = Except.ok c) →
      ∀ (rest : List DirEntry) (st : SyncCounts) (found : Nat),
        syncRun gen now (pre ++ bad :: rest) st found = Except.error msg := by
  intro pre
  induction pre with
  | nil =>
    intro _ rest st found
    rw [List.nil_append, syncRun_cons, hfile, hmd, hread]
    simp
  | cons e pre ih =>
    intro hpre rest st found
    have hpre2 : ∀ e2 ∈ pre, e2.is_file = true → e2.ext_is_md = true →
        ∃ c, e2.read = Except.ok c :=
      fun e2 he2 => hpre e2 (List.mem_cons_of_mem _ he2)
    rw [List.cons_append, syncRun_cons]
    by_cases hskip : e.is_file = false ∨ e.ext_is_md = false
    · rw [if_pos hskip]
      exact ih hpre2 rest st found
    · rw [if_neg hskip]
      push_neg at hskip
      have hf : e.is_file = true := by
        cases hv : e.is_file with
        | false => exact absurd hv hskip.1
        | true => rfl
      have hm : e.ext_is_md = true := by
        cases hv : e.ext_is_md with
        | false => exact absurd hv hskip.2
        | true => rfl
      obtain ⟨c, hc⟩ := hpre e (List.mem_cons_self _ _) hf hm
      rw [hc]
      by_cases hemp : (parse_plan_content c e.path).actions = []
      · simp only [hemp, if_true]
        exact ih hpre2 rest st found
      · simp only [if_neg hemp]
        exact ih hpre2 rest _ _

/-- Witness for the amended C6 theorem at a concrete failing entry. -/
theorem sync_aborts_on_first_unreadable_md_witness :
    badEntry.read = Except.error "io" ∧
    syncRun (fun _ => "n0") 0 [badEntry]
      { db := [], nextId := 0, newCount := 0, updatedCount := 0 } 0 =
      Except.error "io" :=
  ⟨by decide,
    sync_aborts_on_first_unreadable_md (fun _ => "n0") 0 badEntry "io"
      (by decide) (by decide) (by decide) []
      (fun e he => absurd he (List.not_mem_nil e)) []
      { db := [], nextId := 0, newCount := 0, updatedCount := 0 } 0⟩
